import Mathlib

/-!
Verification of `arestor` (schema-driven record model over a flat key-value
store) against its natural-language specification.

The development shallowly embeds the two core modules:

* `arestor/common/model.py` — `Field`, the `_FieldDescriptor` setter,
  `BaseModel` construction / `validate` / `update` / `commit` / `dump`,
  and `ArestorModel.commit`;
* `arestor/common/connector.py` — `RedisConnector`: the flatten/unflatten
  pair `_dump_content` / `_load_content`, the resource read/write helpers,
  `set` / `get` / `remove`, and the `refresh` retry loop.

Python dicts are modelled as insertion-ordered association lists with
unique keys (`alistSet` updates in place, preserving position, exactly as
CPython dicts do).  Fallible code returns `Except Err α`; an uncaught
Python exception is an `Except.error`.  The module
`arestor/common/exception.py` is not among the sources at hand, so the
error kinds below are modelled from the spec's error taxonomy and from the
concrete raise sites of the embedded code.
-/

namespace Arestor

/-- Python runtime values appearing in records: `None`, strings, ints,
lists and string-keyed dicts (dicts as insertion-ordered assoc lists). -/
inductive PyVal where
  | vnone : PyVal
  | vstr : String → PyVal
  | vint : Int → PyVal
  | vlist : List PyVal → PyVal
  | vdict : List (String × PyVal) → PyVal

/-- Error kinds.  `typeError` / `readOnlyError` are the two distinct
`TypeError` raise sites of `_FieldDescriptor.__set__`; `nameError` and
`attributeError` are Python `NameError` (incl. `UnboundLocalError`) and
`AttributeError`; `validationError` is `exception.DataProcessingError`
carrying the reported field name; `connectivityError` is the
`exception.ArestorException` raised by `RedisConnector.refresh` (named per
the spec's taxonomy, the exception module itself being absent from the
sources); `notFound` is the spec's `NotFoundError`, which the embedded
code never raises. -/
inductive Err where
  | typeError : Err
  | readOnlyError : Err
  | nameError : Err
  | attributeError : Err
  | validationError : String → Err
  | connectivityError : Err
  | notFound : Err
deriving DecidableEq

/-- Dict lookup `d.get(key)`: first binding of the key (keys are unique in
Python dicts, so "first" is "the" binding). -/
def alistGet {α : Type} : List (String × α) → String → Option α
  | [], _ => none
  | (k, v) :: rest, key => if k = key then some v else alistGet rest key

/-- Dict write `d[key] = value`: update in place keeping the original
position when the key exists, append otherwise — CPython dict semantics. -/
def alistSet {α : Type} : List (String × α) → String → α → List (String × α)
  | [], key, value => [(key, value)]
  | (k, v) :: rest, key, value =>
    if k = key then (k, value) :: rest else (k, v) :: alistSet rest key value

/-- Python `d.update(m)`: write every binding of `m`, in order, into `d`. -/
def dictUpdate {α : Type} (d m : List (String × α)) : List (String × α) :=
  m.foldl (fun acc kv => alistSet acc kv.1 kv.2) d

/-- Python `value is None` for the embedded values. -/
def isNoneVal : PyVal → Bool
  | .vnone => true
  | _ => false

/-- Python truthiness of a `PyVal` (used by `_set_fields`'s
`if field.key not in self._data or value`). -/
def truthy : PyVal → Bool
  | .vnone => false
  | .vstr s => !(s.isEmpty)
  | .vint n => !(n == 0)
  | .vlist l => !(l.isEmpty)
  | .vdict l => !(l.isEmpty)

/-- The declared `field_type` of a `Field` (`str` or `int` in the claims'
schemas). -/
inductive FType where
  | fstr : FType
  | fint : FType
deriving DecidableEq

/-- Python `isinstance(value, field_type)` for the embedded types.
`None` is an instance of neither `str` nor `int`. -/
def isInst : PyVal → FType → Bool
  | .vstr _, .fstr => true
  | .vint _, .fint => true
  | _, _ => false

/-- Python `str.split(sep)` for a one-character separator (the code only
splits on `"."` and `","`).  `"".split(sep) == [""]`; the result is never
the empty list. -/
def pySplitGo (sep : Char) : List Char → List Char → List String
  | acc, [] => [String.mk acc.reverse]
  | acc, c :: rest =>
    if c = sep then String.mk acc.reverse :: pySplitGo sep [] rest
    else pySplitGo sep (c :: acc) rest

/-- See `pySplitGo`. -/
def pySplit (sep : Char) (s : String) : List String :=
  pySplitGo sep [] s.toList

/-! ## `arestor/common/model.py` -/

/-- `model.Field`: declarative metadata for one record attribute.
`default = none` models the Python default `None` (meaning: no default);
a callable default is represented by the value it produces for the
materialization under consideration (the code invokes it once per
`get_defaults()` call). -/
structure Field where
  name : String
  key : String
  field_type : FType
  default : Option PyVal
  is_required : Bool
  is_read_only : Bool

/-- `_ModelOptions._defaults` / `get_defaults()`: the schema's fields are
registered in order by `add_field`, which records `field.default` under
`field.key` whenever the default is not `None`; `get_defaults()` returns
that mapping (invoking callables). -/
def get_defaults (schema : List Field) : List (String × PyVal) :=
  schema.foldl (fun d f =>
    match f.default with
    | some v => alistSet d f.key v
    | none => d) []

/-- The mutable state of a `BaseModel` instance: `self._data`,
`self._changes` and `self._provision_done`. -/
structure ModelState where
  data : List (String × PyVal)
  changes : List (String × PyVal)
  provision_done : Bool

/-- `_FieldDescriptor.__set__`: reject a value whose runtime type does not
match the field's declared type; reject writes to a read-only field once
provisioning is done (both are `TypeError` in the code, raised at two
distinct sites); otherwise record the value into both `_changes` and
`_data` under `field.key`. -/
def field_set (st : ModelState) (f : Field) (value : PyVal) : Except Err ModelState :=
  if !(isInst value f.field_type) then .error .typeError
  else if st.provision_done && f.is_read_only then .error .readOnlyError
  else .ok { st with
    changes := alistSet st.changes f.key value,
    data := alistSet st.data f.key value }

/-- `BaseModel._set_fields`: for every schema field, pop the supplied value
(`None` when absent) and assign it through the descriptor whenever the key
is not yet in `_data` or the supplied value is truthy.  Leftover supplied
names are only logged. -/
def set_fields : ModelState → List (String × PyVal) → List Field → Except Err ModelState
  | st, _, [] => .ok st
  | st, fields, f :: rest =>
    match (if ((alistGet st.data f.key).isNone
               || truthy ((alistGet fields f.name).getD .vnone))
           then field_set st f ((alistGet fields f.name).getD .vnone)
           else .ok st) with
    | .error e => .error e
    | .ok st' => set_fields st' fields rest

/-- `BaseModel.__init__`: `_data` starts as `get_defaults()`, `_changes`
empty, `_provision_done` false; `_set_fields(fields)` runs, then
`_provision_done` is set. -/
def model_init (schema : List Field) (fields : List (String × PyVal)) :
    Except Err ModelState :=
  match set_fields { data := get_defaults schema, changes := [],
                     provision_done := false } fields schema with
  | .error e => .error e
  | .ok st => .ok { st with provision_done := true }

/-- `BaseModel.validate`: raise `DataProcessingError` for the first
required field with `self._data.get(field.name) is None`.  Note the code
reads `_data` under `field.name`, although `_data` is keyed by `field.key`
everywhere else (`__set__`, `update`, `dump`). -/
def validate (st : ModelState) : List Field → Except Err Unit
  | [] => .ok ()
  | f :: rest =>
    if f.is_required && isNoneVal ((alistGet st.data f.name).getD .vnone) then
      .error (.validationError f.name)
    else validate st rest

/-- The staging loop of `BaseModel.update`: for every schema field whose
name occurs in `fields`, write the supplied value into `_changes` under
`field.key`. -/
def stage_changes (fields : List (String × PyVal)) :
    List (String × PyVal) → List Field → List (String × PyVal)
  | changes, [] => changes
  | changes, f :: rest =>
    match alistGet fields f.name with
    | some v => stage_changes fields (alistSet changes f.key v) rest
    | none => stage_changes fields changes rest

/-- `BaseModel.update`: early return on a falsy (empty) `fields`;
otherwise stage matching fields into `_changes` and then execute
`self._data.update(self._changes)` — the whole pending map is merged into
`_data` immediately, not at `commit()` time. -/
def model_update (st : ModelState) (schema : List Field)
    (fields : List (String × PyVal)) : ModelState :=
  if fields.isEmpty then st
  else
    { st with changes := stage_changes fields st.changes schema,
              data := dictUpdate st.data (stage_changes fields st.changes schema) }

/-- `BaseModel.commit`: `self._data.update(self._changes)` then
`self._changes.clear()`. -/
def base_commit (st : ModelState) : ModelState :=
  { st with data := dictUpdate st.data st.changes, changes := [] }

/-- `ArestorModel.commit`: call `self._connector.set(...)` first and only
then `super().commit()`; an exception from the connector propagates before
any local state is touched.  The connector is abstracted as a fallible
transformer of its own state `σ`. -/
def arestor_commit {σ : Type} (connSet : σ → Except Err σ) (store : σ)
    (st : ModelState) : Except Err (σ × ModelState) :=
  match connSet store with
  | .error e => .error e
  | .ok store' => .ok (store', base_commit st)

mutual

/-- `BaseModel._unpack`: records are reduced to their dumps and lists and
dicts are rebuilt element-wise.  `PyVal` contains no record objects, so
every case returns a structurally identical value. -/
def unpack : PyVal → PyVal
  | .vnone => .vnone
  | .vstr s => .vstr s
  | .vint n => .vint n
  | .vlist l => .vlist (unpackL l)
  | .vdict l => .vdict (unpackD l)

/-- List case of `_unpack`. -/
def unpackL : List PyVal → List PyVal
  | [] => []
  | v :: rest => unpack v :: unpackL rest

/-- Dict case of `_unpack`. -/
def unpackD : List (String × PyVal) → List (String × PyVal)
  | [] => []
  | (k, v) :: rest => (k, unpack v) :: unpackD rest

end

/-- The field loop of `BaseModel.dump`: skip read-only fields when
excluded, skip non-required fields whose current value is `None`,
otherwise emit `content[field.key] = unpack(self._data.get(field.key))`. -/
def dump_loop (st : ModelState) (include_read_only : Bool) :
    List (String × PyVal) → List Field → List (String × PyVal)
  | content, [] => content
  | content, f :: rest =>
    if f.is_read_only && !include_read_only then
      dump_loop st include_read_only content rest
    else
      let value := unpack ((alistGet st.data f.key).getD .vnone)
      if !f.is_required && isNoneVal value then
        dump_loop st include_read_only content rest
      else
        dump_loop st include_read_only (alistSet content f.key value) rest

/-- `BaseModel.dump`. -/
def model_dump (st : ModelState) (include_read_only : Bool)
    (schema : List Field) : List (String × PyVal) :=
  dump_loop st include_read_only [] schema

/-! ## `arestor/common/connector.py` -/

/-- The observable state of the Redis backend: named hashes (field →
stored string) and named sets. -/
structure RedisState where
  hashes : List (String × List (String × String))
  sets : List (String × List String)

/-- Redis `HGET`. -/
def hget (st : RedisState) (h f : String) : Option String :=
  (alistGet st.hashes h).bind fun tbl => alistGet tbl f

/-- Redis `HSET`. -/
def hset (st : RedisState) (h f v : String) : RedisState :=
  { st with hashes :=
      alistSet st.hashes h (alistSet ((alistGet st.hashes h).getD []) f v) }

/-- Redis `SADD`. -/
def sadd (st : RedisState) (s m : String) : RedisState :=
  let members := (alistGet st.sets s).getD []
  { st with sets :=
      alistSet st.sets s (if members.contains m then members else members ++ [m]) }

/-- Redis `SISMEMBER`. -/
def sismember (st : RedisState) (s m : String) : Bool :=
  ((alistGet st.sets s).getD []).contains m

/-- The item loop of `RedisConnector._dump_content` (the flattener): build
`content_key` by dot-joining, and for a dict value call
`self._process_content(value, content_key)` — a method that exists nowhere
in the repository, so any nested dict raises `AttributeError`; every other
value is emitted as a leaf. -/
def dump_content_loop (pfx : String) :
    List (String × PyVal) → List (String × PyVal) → Except Err (List (String × PyVal))
  | content, [] => .ok content
  | content, (key, value) :: rest =>
    let content_key := if pfx.isEmpty then key else pfx ++ "." ++ key
    match value with
    | .vdict _ => .error .attributeError
    | v => dump_content_loop pfx (alistSet content content_key v) rest

/-- `RedisConnector._dump_content`. -/
def dump_content (root : List (String × PyVal)) (pfx : String) :
    Except Err (List (String × PyVal)) :=
  dump_content_loop pfx [] root

/-- Python `entities.pop()` factored out: split a nonempty list into its
initial part and its last element.  (`str.split` never yields `[]`, so the
`[]` case is unreachable.) -/
def pop_last : List String → List String × String
  | [] => ([], "")
  | [x] => ([], x)
  | x :: y :: rest =>
    let (l, last) := pop_last (y :: rest)
    (x :: l, last)

/-- The `while entities:` walk of `RedisConnector._load_content`:
`container = container.setdefault(entities.pop(0), {})` down the path,
then `container[container_key] = value`.  Reaching a non-dict value raises
`AttributeError` (calling `.setdefault` on it) when segments remain, or
`TypeError` (item assignment) at the last step. -/
def setdefault_walk :
    List (String × PyVal) → List String → String → PyVal → Except Err (List (String × PyVal))
  | container, [], ckey, value => .ok (alistSet container ckey value)
  | container, e :: rest, ckey, value =>
    match alistGet container e with
    | some (.vdict d) =>
      match setdefault_walk d rest ckey value with
      | .error err => .error err
      | .ok d' => .ok (alistSet container e (.vdict d'))
    | some _ => .error (if rest.isEmpty then .typeError else .attributeError)
    | none =>
      match setdefault_walk [] rest ckey value with
      | .error err => .error err
      | .ok d' => .ok (alistSet container e (.vdict d'))

/-- The item loop of `RedisConnector._load_content` (the unflattener). -/
def load_content_loop :
    List (String × PyVal) → List (String × PyVal) → Except Err (List (String × PyVal))
  | content, [] => .ok content
  | content, (key, value) :: rest =>
    let (segs, ckey) := pop_last (pySplit '.' key)
    match setdefault_walk content segs ckey value with
    | .error err => .error err
    | .ok content' => load_content_loop content' rest

/-- `RedisConnector._load_content`. -/
def load_content (data : List (String × PyVal)) :
    Except Err (List (String × PyVal)) :=
  load_content_loop [] data

/-- `RedisConnector._set_field`: the body evaluates `json.dumps(value)`,
but `json` is never imported in `connector.py`, so the call raises
`NameError` before `hset` can run. -/
def set_field (st : RedisState) (model_name resource_id field : String)
    (value : PyVal) : Except Err RedisState :=
  .error .nameError

/-- `RedisConnector._get_field`: the body calls `self._connection.hfet`, a
method that does not exist on the Redis client, so it raises
`AttributeError`. -/
def get_field (st : RedisState) (model_name resource_id field : String) :
    Except Err PyVal :=
  .error .attributeError

/-- The field-write loop of `RedisConnector._add_resource`. -/
def add_fields (model_name resource_id : String) :
    RedisState → List (String × PyVal) → Except Err RedisState
  | st, [] => .ok st
  | st, (field, value) :: rest =>
    match set_field st model_name resource_id field value with
    | .error e => .error e
    | .ok st' => add_fields model_name resource_id st' rest

/-- `RedisConnector._add_resource`: add the id to the type's index set,
record the comma-joined field-name list in the `schema` hash, then write
every field entry. -/
def add_resource (st : RedisState) (model_name resource_id : String)
    (content : List (String × PyVal)) : Except Err RedisState :=
  let st1 := sadd st ("models." ++ model_name) resource_id
  let st2 := hset st1 "schema" (resource_id ++ ".fields")
    (String.intercalate "," (content.map Prod.fst))
  add_fields model_name resource_id st2 content

/-- `RedisConnector._get_resource`: the `sismember` check feeds only an
empty `pass` branch (a TODO), so a missing resource is not reported as
`NotFound`.  When the `schema` entry is absent, `resource_keys` is `None`
and `None.split(",")` raises `AttributeError`.  When it is present, the
first iteration of the field loop evaluates the local name `field` before
any assignment to it (`field = self._get_field(..., field)`), raising
`UnboundLocalError` — and `str.split` never yields an empty list, so the
loop always runs. -/
def get_resource (st : RedisState) (model_name resource_id : String) :
    Except Err (List (String × PyVal)) :=
  let _mem := sismember st ("models." ++ model_name) resource_id
  match hget st "schema" (resource_id ++ ".fields") with
  | none => .error .attributeError
  | some resource_keys =>
    match pySplit ',' resource_keys with
    | [] => .ok []
    | _ :: _ => .error .nameError

/-- `RedisConnector.get`: refresh, read the raw resource, unflatten.
`refreshResult` stands for the outcome of the `self.refresh()` call. -/
def connector_get (refreshResult : Except Err Bool) (st : RedisState)
    (resource_id model_name : String) : Except Err (List (String × PyVal)) :=
  match refreshResult with
  | .error e => .error e
  | .ok _ =>
    match get_resource st model_name resource_id with
    | .error e => .error e
    | .ok content => load_content content

/-- `RedisConnector.set`: refresh, flatten the model's dump, store it.
The model object is abstracted by the projections the code uses of it:
`model.__class__.__name__`, `model.resource_id` and `model.dump()`. -/
def connector_set (refreshResult : Except Err Bool) (st : RedisState)
    (model_name resource_id : String) (dump : List (String × PyVal)) :
    Except Err RedisState :=
  match refreshResult with
  | .error e => .error e
  | .ok _ =>
    match dump_content dump "" with
    | .error e => .error e
    | .ok content => add_resource st model_name resource_id content

/-- `RedisConnector.remove`: the entire body is the `self.refresh()` call
(the method is even still decorated `@abc.abstractmethod`); nothing is
deleted — `_remove_resource` is never invoked. -/
def connector_remove (refreshResult : Except Err Bool) (st : RedisState)
    (model_name resource_id : String) : Except Err RedisState :=
  match refreshResult with
  | .error e => .error e
  | .ok _ => .ok st

/-- The retry loop of `RedisConnector.refresh`: up to `fuel` iterations
starting at index `i`; each iteration attempts `self.is_alive() or
self._connect()` (abstracted as the two Boolean oracles); break on the
first success, raise on exhaustion (`for … else`). -/
def refresh_loop (is_alive conn : Nat → Bool) : Nat → Nat → Except Err Bool
  | _, 0 => .error .connectivityError
  | i, fuel + 1 =>
    if is_alive i || conn i then .ok true else refresh_loop is_alive conn (i + 1) fuel

/-- `RedisConnector.refresh`: `for _ in range(CONFIG.retry_count)` around
the attempt; returns `True` after a successful attempt, raises
`exception.ArestorException` (the spec's `ConnectivityError`) when every
attempt in the budget has failed. -/
def connector_refresh (retry_count : Nat) (is_alive conn : Nat → Bool) :
    Except Err Bool :=
  refresh_loop is_alive conn 0 retry_count

/-! ## Association-list and dict-update lemmas -/

theorem alistGet_alistSet {α : Type} (m : List (String × α)) (k : String) (v : α)
    (k' : String) :
    alistGet (alistSet m k v) k' = if k' = k then some v else alistGet m k' := by
  induction m with
  | nil =>
    simp only [alistSet, alistGet]
    by_cases h : k = k'
    · rw [if_pos h, if_pos h.symm]
    · rw [if_neg h, if_neg (fun hh => h hh.symm)]
  | cons hd tl ih =>
    obtain ⟨k0, v0⟩ := hd
    simp only [alistSet]
    by_cases h0 : k0 = k
    · subst h0
      simp only [if_pos rfl, alistGet]
      by_cases h1 : k0 = k'
      · rw [if_pos h1, if_pos h1.symm]
      · rw [if_neg h1, if_neg (fun hh => h1 hh.symm), if_neg h1]
    · simp only [if_neg h0, alistGet, ih]
      by_cases h1 : k0 = k'
      · subst h1
        rw [if_pos rfl, if_neg (fun hh : k0 = k => h0 hh), if_pos rfl]
      · by_cases h2 : k' = k
        · rw [if_pos h2, if_pos h2, if_neg h1]
        · rw [if_neg h2, if_neg h2, if_neg h1]

theorem alistGet_eq_none_iff {α : Type} (m : List (String × α)) (k : String) :
    alistGet m k = none ↔ k ∉ m.map Prod.fst := by
  induction m with
  | nil => simp [alistGet]
  | cons hd tl ih =>
    obtain ⟨k0, v0⟩ := hd
    simp only [alistGet, List.map_cons, List.mem_cons]
    by_cases h : k0 = k
    · subst h; simp
    · rw [if_neg h, ih]
      constructor
      · rintro hk (h1 | h2)
        · exact h h1.symm
        · exact hk h2
      · intro hk h2
        exact hk (Or.inr h2)

theorem mem_keys_alistSet {α : Type} (m : List (String × α)) (k : String) (v : α)
    (x : String) :
    x ∈ (alistSet m k v).map Prod.fst ↔ x ∈ m.map Prod.fst ∨ x = k := by
  induction m with
  | nil => simp [alistSet]
  | cons hd tl ih =>
    obtain ⟨k0, v0⟩ := hd
    by_cases h : k0 = k
    · subst h; simp [alistSet]; tauto
    · simp [alistSet, h, ih]; tauto

theorem alistSet_keys_nodup {α : Type} (m : List (String × α)) (k : String) (v : α)
    (h : (m.map Prod.fst).Nodup) : ((alistSet m k v).map Prod.fst).Nodup := by
  induction m with
  | nil => simp [alistSet]
  | cons hd tl ih =>
    obtain ⟨k0, v0⟩ := hd
    rw [List.map_cons, List.nodup_cons] at h
    by_cases hk : k0 = k
    · subst hk
      rw [alistSet, if_pos rfl, List.map_cons, List.nodup_cons]
      exact h
    · rw [alistSet, if_neg hk, List.map_cons, List.nodup_cons]
      refine ⟨?_, ih h.2⟩
      rw [mem_keys_alistSet]
      rintro (hin | hx)
      · exact h.1 hin
      · exact hk hx

theorem alistGet_dictUpdate_of_none {α : Type} (d m : List (String × α)) (k : String)
    (h : alistGet m k = none) : alistGet (dictUpdate d m) k = alistGet d k := by
  induction m generalizing d with
  | nil => rfl
  | cons hd tl ih =>
    obtain ⟨k1, v1⟩ := hd
    rw [alistGet] at h
    by_cases h1 : k1 = k
    · rw [if_pos h1] at h; exact absurd h (by simp)
    · rw [if_neg h1] at h
      show alistGet (dictUpdate (alistSet d k1 v1) tl) k = _
      rw [ih _ h, alistGet_alistSet, if_neg (fun hh => h1 hh.symm)]

theorem alistGet_dictUpdate_of_some {α : Type} (d m : List (String × α)) (k : String)
    (v : α) (hnd : (m.map Prod.fst).Nodup) (h : alistGet m k = some v) :
    alistGet (dictUpdate d m) k = some v := by
  induction m generalizing d with
  | nil => exact absurd h (by simp [alistGet])
  | cons hd tl ih =>
    obtain ⟨k1, v1⟩ := hd
    rw [List.map_cons, List.nodup_cons] at hnd
    rw [alistGet] at h
    by_cases h1 : k1 = k
    · rw [if_pos h1] at h
      obtain rfl : v1 = v := by injection h
      subst h1
      have htl : alistGet tl k1 = none := (alistGet_eq_none_iff tl k1).mpr hnd.1
      show alistGet (dictUpdate (alistSet d k1 v1) tl) k1 = _
      rw [alistGet_dictUpdate_of_none _ _ _ htl, alistGet_alistSet, if_pos rfl]
    · rw [if_neg h1] at h
      show alistGet (dictUpdate (alistSet d k1 v1) tl) k = some v
      exact ih (alistSet d k1 v1) hnd.2 h

/-! ## Model-level lemmas -/

/-- The pending map is a sub-map of the current data map: every pending
binding is also the current binding. -/
def sub_map (c d : List (String × PyVal)) : Prop :=
  ∀ k v, alistGet c k = some v → alistGet d k = some v

theorem sub_map_nil (d : List (String × PyVal)) : sub_map [] d := by
  intro k v h
  simp [alistGet] at h

theorem sub_map_alistSet {c d : List (String × PyVal)} (k : String) (v : PyVal)
    (h : sub_map c d) : sub_map (alistSet c k v) (alistSet d k v) := by
  intro k' v' h'
  rw [alistGet_alistSet] at h'
  rw [alistGet_alistSet]
  by_cases hk : k' = k
  · rwa [if_pos hk] at h' ⊢
  · rw [if_neg hk] at h'
    rw [if_neg hk]
    exact h k' v' h'

theorem field_set_ok {st : ModelState} {f : Field} {v : PyVal} {st' : ModelState}
    (h : field_set st f v = .ok st') :
    st' = { st with changes := alistSet st.changes f.key v,
                    data := alistSet st.data f.key v } := by
  unfold field_set at h
  split at h
  · exact absurd h (by simp)
  · split at h
    · exact absurd h (by simp)
    · cases h
      rfl

theorem set_fields_inv {fields : List (String × PyVal)} :
    ∀ (schema : List Field) (st st' : ModelState),
    sub_map st.changes st.data → (st.changes.map Prod.fst).Nodup →
    set_fields st fields schema = .ok st' →
    sub_map st'.changes st'.data ∧ (st'.changes.map Prod.fst).Nodup := by
  intro schema
  induction schema with
  | nil =>
    intro st st' hs hn h
    cases h
    exact ⟨hs, hn⟩
  | cons f rest ih =>
    intro st st' hs hn h
    rw [set_fields] at h
    split at h
    · exact absurd h (by simp)
    · rename_i st1 heq
      split at heq
      · have h1 := field_set_ok heq
        subst h1
        exact ih _ st' (sub_map_alistSet _ _ hs) (alistSet_keys_nodup _ _ _ hn) h
      · cases heq
        exact ih _ st' hs hn h

theorem set_fields_off {fields : List (String × PyVal)} {k : String} :
    ∀ (schema : List Field) (st st' : ModelState),
    (∀ f ∈ schema, f.key ≠ k) →
    set_fields st fields schema = .ok st' →
    alistGet st'.changes k = alistGet st.changes k := by
  intro schema
  induction schema with
  | nil =>
    intro st st' _ h
    cases h
    rfl
  | cons f rest ih =>
    intro st st' hk h
    rw [set_fields] at h
    split at h
    · exact absurd h (by simp)
    · rename_i st1 heq
      split at heq
      · have h1 := field_set_ok heq
        subst h1
        rw [ih _ st' (fun g hg => hk g (List.mem_cons_of_mem f hg)) h]
        simp only [alistGet_alistSet]
        rw [if_neg (fun hh => (hk f (List.mem_cons_self f rest)) hh.symm)]
      · cases heq
        exact ih _ st' (fun g hg => hk g (List.mem_cons_of_mem f hg)) h

theorem nodup_keys_head_ne {f : Field} {rest : List Field}
    (h : ((f :: rest).map Field.key).Nodup) :
    ∀ g ∈ rest, g.key ≠ f.key := by
  rw [List.map_cons, List.nodup_cons] at h
  intro g hg he
  exact h.1 (he ▸ List.mem_map_of_mem Field.key hg)

theorem set_fields_hit {fields : List (String × PyVal)} {f : Field} {v : PyVal} :
    ∀ (schema : List Field) (st st' : ModelState),
    f ∈ schema → (schema.map Field.key).Nodup →
    alistGet fields f.name = some v → truthy v = true →
    set_fields st fields schema = .ok st' →
    alistGet st'.changes f.key = some v := by
  intro schema
  induction schema with
  | nil =>
    intro st st' hf
    exact absurd hf (List.not_mem_nil f)
  | cons g rest ih =>
    intro st st' hf hnd hv htr h
    rw [set_fields] at h
    split at h
    · exact absurd h (by simp)
    · rename_i st1 heq
      rcases List.mem_cons.mp hf with hfg | hfr
      · subst hfg
        rw [hv] at heq
        simp only [Option.getD_some, htr, Bool.or_true, if_pos] at heq
        have h1 := field_set_ok heq
        subst h1
        rw [set_fields_off rest _ st' (nodup_keys_head_ne hnd) h]
        simp [alistGet_alistSet]
      · split at heq
        · have h1 := field_set_ok heq
          subst h1
          exact ih _ st' hfr ((List.map_cons Field.key g rest ▸ hnd).of_cons) hv htr h
        · cases heq
          exact ih _ st' hfr ((List.map_cons Field.key g rest ▸ hnd).of_cons) hv htr h

theorem model_init_inv {schema : List Field} {fields : List (String × PyVal)}
    {st : ModelState} (h : model_init schema fields = .ok st) :
    sub_map st.changes st.data ∧ (st.changes.map Prod.fst).Nodup := by
  unfold model_init at h
  split at h
  · exact absurd h (by simp)
  · rename_i stM heq
    cases h
    exact set_fields_inv schema _ stM (sub_map_nil _) (by simp) heq

theorem model_init_hit {schema : List Field} {fields : List (String × PyVal)}
    {st : ModelState} {f : Field} {v : PyVal}
    (hnd : (schema.map Field.key).Nodup) (hf : f ∈ schema)
    (hv : alistGet fields f.name = some v) (htr : truthy v = true)
    (h : model_init schema fields = .ok st) :
    alistGet st.changes f.key = some v := by
  unfold model_init at h
  split at h
  · exact absurd h (by simp)
  · rename_i stM heq
    cases h
    exact set_fields_hit schema _ stM hf hnd hv htr heq

theorem stage_changes_off {fields : List (String × PyVal)} {k : String} :
    ∀ (schema : List Field) (changes : List (String × PyVal)),
    (∀ f ∈ schema, f.key ≠ k) →
    alistGet (stage_changes fields changes schema) k = alistGet changes k := by
  intro schema
  induction schema with
  | nil => intro changes _; rfl
  | cons f rest ih =>
    intro changes hk
    rw [stage_changes]
    split
    · rw [ih _ (fun g hg => hk g (List.mem_cons_of_mem f hg))]
      rw [alistGet_alistSet]
      rw [if_neg (fun hh => (hk f (List.mem_cons_self f rest)) hh.symm)]
    · exact ih _ (fun g hg => hk g (List.mem_cons_of_mem f hg))

theorem stage_changes_hit {fields : List (String × PyVal)} {f : Field} {v : PyVal} :
    ∀ (schema : List Field) (changes : List (String × PyVal)),
    f ∈ schema → (schema.map Field.key).Nodup →
    alistGet fields f.name = some v →
    alistGet (stage_changes fields changes schema) f.key = some v := by
  intro schema
  induction schema with
  | nil =>
    intro changes hf
    exact absurd hf (List.not_mem_nil f)
  | cons g rest ih =>
    intro changes hf hnd hv
    rw [stage_changes]
    rcases List.mem_cons.mp hf with hfg | hfr
    · subst hfg
      rw [hv]
      rw [stage_changes_off rest _ (nodup_keys_head_ne hnd)]
      rw [alistGet_alistSet, if_pos rfl]
    · split
      · exact ih _ hfr ((List.map_cons Field.key g rest ▸ hnd).of_cons) hv
      · exact ih _ hfr ((List.map_cons Field.key g rest ▸ hnd).of_cons) hv

theorem stage_changes_nodup {fields : List (String × PyVal)} :
    ∀ (schema : List Field) (changes : List (String × PyVal)),
    (changes.map Prod.fst).Nodup →
    ((stage_changes fields changes schema).map Prod.fst).Nodup := by
  intro schema
  induction schema with
  | nil => intro changes h; exact h
  | cons f rest ih =>
    intro changes h
    rw [stage_changes]
    split
    · exact ih _ (alistSet_keys_nodup _ _ _ h)
    · exact ih _ h

/-! ## Refresh-loop lemmas -/

theorem refresh_loop_ok_iff (a c : Nat → Bool) :
    ∀ (fuel i : Nat),
    refresh_loop a c i fuel = .ok true ↔
      ∃ j, j < fuel ∧ (a (i + j) || c (i + j)) = true := by
  intro fuel
  induction fuel with
  | zero =>
    intro i
    simp [refresh_loop]
  | succ n ih =>
    intro i
    rw [refresh_loop]
    by_cases h : (a i || c i) = true
    · rw [if_pos h]
      constructor
      · intro _
        exact ⟨0, Nat.succ_pos n, by simpa using h⟩
      · intro _
        rfl
    · rw [if_neg h]
      rw [ih (i + 1)]
      constructor
      · rintro ⟨j, hj, hatt⟩
        refine ⟨j + 1, by omega, ?_⟩
        rw [show i + (j + 1) = i + 1 + j by omega]
        exact hatt
      · rintro ⟨j, hj, hatt⟩
        cases j with
        | zero =>
          rw [Nat.add_zero] at hatt
          exact absurd hatt h
        | succ j' =>
          refine ⟨j', by omega, ?_⟩
          rw [show i + 1 + j' = i + (j' + 1) by omega]
          exact hatt

theorem refresh_loop_cases (a c : Nat → Bool) :
    ∀ (fuel i : Nat),
    refresh_loop a c i fuel = .ok true ∨
    refresh_loop a c i fuel = .error .connectivityError := by
  intro fuel
  induction fuel with
  | zero => intro i; right; rfl
  | succ n ih =>
    intro i
    rw [refresh_loop]
    by_cases h : (a i || c i) = true
    · rw [if_pos h]; left; rfl
    · rw [if_neg h]; exact ih (i + 1)


/-! ## Concrete fixtures used by the claim theorems -/

/-- The required, defaultless `name: str` field of the C8 scenario. -/
def c8_name_field : Field := ⟨"name", "name", .fstr, none, true, false⟩

/-- The optional `count: int` field with default `0` of the C8 scenario. -/
def c8_count_field : Field := ⟨"count", "count", .fint, some (.vint 0), false, false⟩

/-- The scenario schema `{name: str, required}, {count: int, default=0}`. -/
def c8_schema : List Field := [c8_name_field, c8_count_field]

/-- The state of a record constructed from `c8_schema` with `{name: "x"}`. -/
def c8_st : ModelState :=
  ⟨[("count", .vint 0), ("name", .vstr "x")], [("name", .vstr "x")], true⟩

/-- A schema whose single required field has accessor name `foo` but
persisted key `bar` (`Field` allows the two to differ). -/
def c7_schema : List Field := [⟨"foo", "bar", .fstr, none, true, false⟩]

/-- The record state produced by constructing from `c7_schema` with
`{foo: "x"}`: the value is stored under the key `bar`. -/
def c7_st : ModelState := ⟨[("bar", .vstr "x")], [("bar", .vstr "x")], true⟩

/-- A one-field schema for the update claims. -/
def c5_field : Field := ⟨"name", "name", .fstr, none, false, false⟩

/-- See `c5_field`. -/
def c5_schema : List Field := [c5_field]

/-- A provisioned record with committed value `"a"` and no pending
changes. -/
def c5_st : ModelState := ⟨[("name", .vstr "a")], [], true⟩

/-- A provisioned record with one staged but uncommitted change. -/
def c4_st : ModelState := ⟨[("name", .vstr "a")], [("name", .vstr "b")], true⟩

/-- The nested scenario map `{"a": {"b": 1, "c": 2}, "d": 3}`. -/
def c2_nested : List (String × PyVal) :=
  [("a", .vdict [("b", .vint 1), ("c", .vint 2)]), ("d", .vint 3)]

/-- The flat scenario map `{"a.b": 1, "a.c": 2, "d": 3}`. -/
def c2_flat : List (String × PyVal) :=
  [("a.b", .vint 1), ("a.c", .vint 2), ("d", .vint 3)]

/-- An empty backend state. -/
def st_empty : RedisState := ⟨[], []⟩

/-- A backend state in which resource `r1` of type `ArestorModel` is fully
indexed: index-set membership and schema entry present, exactly as
`_add_resource` records them. -/
def st_r1 : RedisState :=
  ⟨[("schema", [("r1.fields", "resource_id,name")])], [("models.ArestorModel", ["r1"])]⟩

/-- A read-only string field. -/
def c6_field : Field := ⟨"locked", "locked", .fstr, none, false, true⟩

/-- A provisioned record holding a value for the read-only field. -/
def c6_st : ModelState := ⟨[("locked", .vstr "x")], [("locked", .vstr "x")], true⟩

/-! ## Claim theorems -/

/-- C1: the claimed set-then-get round trip fails on the code: `set` raises
`NameError` (`json` is never imported in `connector.py`, so the first
`_set_field` call dies at `json.dumps`), and even against a hand-populated
store `get` raises `UnboundLocalError` in the field loop of
`_get_resource` — no reconstruction of the dump ever happens. -/
theorem set_get_round_trip_crashes :
    connector_set (.ok true) st_empty "ArestorModel" "r1"
      [("resource_id", .vstr "r1"), ("name", .vstr "x")] = .error .nameError ∧
    connector_get (.ok true) st_r1 "r1" "ArestorModel" = .error .nameError :=
  ⟨rfl, rfl⟩

/-- C2: `unflatten (flatten m) = m` fails on the code because the flattener
crashes: on the scenario input from the spec, the nested value triggers
the call to the nonexistent method `_process_content`, an
`AttributeError`, instead of producing `{"a.b": 1, "a.c": 2, "d": 3}`.
The unflattener alone is correct: applied to the expected flat map it
reproduces the nested map. -/
theorem flatten_crashes_unflatten_ok :
    dump_content c2_nested "" = .error .attributeError ∧
    load_content c2_flat = .ok c2_nested :=
  ⟨rfl, rfl⟩

/-- C3: `remove` followed by `get` never yields `NotFoundError`: the body
of `remove` is only the `refresh()` call, so the store state comes back
intact (nothing is deleted), and `get` of a resource id with no schema
entry dies with `AttributeError` (`None.split(",")`) — the intended
not-found check is an empty `pass` marked TODO. -/
theorem remove_noop_get_attribute_error :
    connector_remove (.ok true) st_r1 "ArestorModel" "r1" = .ok st_r1 ∧
    connector_get (.ok true) st_empty "r1" "ArestorModel" = .error .attributeError ∧
    Err.attributeError ≠ Err.notFound :=
  ⟨rfl, rfl, by decide⟩

/-- C4: `ArestorModel.commit` calls the connector `set` before touching
local state: when `set` raises, the same error propagates and no successor
model state is produced (both maps are as before, so the commit is
retryable); when `set` succeeds, the result is the new store state paired
with `base_commit st`, whose pending map is empty and whose data is the
pending map merged over the old data. -/
theorem commit_store_first_then_merge {σ : Type} (connSet : σ → Except Err σ)
    (store : σ) (st : ModelState) (hnd : (st.changes.map Prod.fst).Nodup) :
    (∀ e, connSet store = .error e → arestor_commit connSet store st = .error e) ∧
    (∀ store', connSet store = .ok store' →
      arestor_commit connSet store st = .ok (store', base_commit st) ∧
      (base_commit st).changes = [] ∧
      (∀ k v, alistGet st.changes k = some v →
        alistGet (base_commit st).data k = some v) ∧
      (∀ k, alistGet st.changes k = none →
        alistGet (base_commit st).data k = alistGet st.data k)) := by
  constructor
  · intro e he
    unfold arestor_commit
    rw [he]
  · intro store' hs
    refine ⟨?_, rfl, ?_, ?_⟩
    · unfold arestor_commit
      rw [hs]
    · intro k v hk
      exact alistGet_dictUpdate_of_some _ _ _ _ hnd hk
    · intro k hk
      exact alistGet_dictUpdate_of_none _ _ _ hk

/-- Witness for C4 at a concrete record state and the two possible
connector outcomes. -/
theorem commit_store_first_then_merge_witness :
    arestor_commit (fun _ : Unit => .error .connectivityError) () c4_st =
      .error .connectivityError ∧
    arestor_commit (fun s : Unit => .ok s) () c4_st = .ok ((), base_commit c4_st) := by
  constructor
  · exact (commit_store_first_then_merge (fun _ : Unit => .error .connectivityError)
      () c4_st (by decide)).1 .connectivityError rfl
  · exact ((commit_store_first_then_merge (fun s : Unit => .ok s)
      () c4_st (by decide)).2 () rfl).1

/-- C5 counterexample: on the code, `update` does not leave the current
data map unchanged until `commit()`: updating the single field of
`c5_schema` from `"a"` to `"b"` already rewrites `_data`. -/
theorem update_mutates_data_counterexample :
    (model_update c5_st c5_schema [("name", .vstr "b")]).data ≠ c5_st.data := by
  intro h
  have h1 : alistGet (model_update c5_st c5_schema [("name", .vstr "b")]).data "name"
      = some (.vstr "b") := rfl
  rw [h] at h1
  have h2 : alistGet c5_st.data "name" = some (.vstr "a") := rfl
  rw [h2] at h1
  injection h1 with h3
  injection h3 with h4
  exact absurd h4 (by decide)

/-- C5 (amended): `update(fields)` on a nonempty `fields` stages every key
present in both `fields` and the schema into the pending map under the
persisted key of the field, ignores keys matching no schema field, and
then immediately merges the whole pending map into the current data map
(`self._data.update(self._changes)`) — the data map changes before any
`commit()`; keys outside the new pending map keep their old data value. -/
theorem update_stages_and_merges (st : ModelState) (schema : List Field)
    (fields : List (String × PyVal))
    (hne : fields.isEmpty = false)
    (hkeys : (schema.map Field.key).Nodup)
    (hch : (st.changes.map Prod.fst).Nodup) :
    (model_update st schema fields).provision_done = st.provision_done ∧
    (∀ f ∈ schema, ∀ v, alistGet fields f.name = some v →
      alistGet (model_update st schema fields).changes f.key = some v) ∧
    (∀ k, (∀ f ∈ schema, f.key ≠ k) →
      alistGet (model_update st schema fields).changes k = alistGet st.changes k) ∧
    (∀ k v, alistGet (model_update st schema fields).changes k = some v →
      alistGet (model_update st schema fields).data k = some v) ∧
    (∀ k, alistGet (model_update st schema fields).changes k = none →
      alistGet (model_update st schema fields).data k = alistGet st.data k) := by
  have hcond : ¬(fields.isEmpty = true) := by
    rw [hne]
    exact Bool.false_ne_true
  unfold model_update
  rw [if_neg hcond]
  refine ⟨rfl, ?_, ?_, ?_, ?_⟩
  · intro f hf v hv
    exact stage_changes_hit schema st.changes hf hkeys hv
  · intro k hk
    exact stage_changes_off schema st.changes hk
  · intro k v hk
    exact alistGet_dictUpdate_of_some _ _ _ _
      (stage_changes_nodup schema st.changes hch) hk
  · intro k hk
    exact alistGet_dictUpdate_of_none _ _ _ hk

/-- Witness for C5 (amended) at the concrete one-field schema. -/
theorem update_stages_and_merges_witness :
    alistGet (model_update c5_st c5_schema [("name", .vstr "b")]).changes "name" =
      some (.vstr "b") ∧
    alistGet (model_update c5_st c5_schema [("name", .vstr "b")]).data "name" =
      some (.vstr "b") := by
  obtain ⟨-, hstage, -, hmerge, -⟩ :=
    update_stages_and_merges c5_st c5_schema [("name", .vstr "b")]
      rfl (by decide) (by decide)
  have h1 := hstage c5_field (List.mem_cons_self _ _) (.vstr "b") rfl
  exact ⟨h1, hmerge "name" (.vstr "b") h1⟩

/-- C6: a correctly-typed write to a read-only field succeeds while the
record is not yet provisioned (i.e. during construction) and is recorded
in both maps; after provisioning, the same write fails with the read-only
violation error and produces no successor state, so the value of the
field is unchanged. -/
theorem read_only_enforced_after_provision (f : Field) (st : ModelState) (v : PyVal)
    (hty : isInst v f.field_type = true) (hro : f.is_read_only = true) :
    (st.provision_done = false →
      field_set st f v = .ok { st with changes := alistSet st.changes f.key v,
                                       data := alistSet st.data f.key v }) ∧
    (st.provision_done = true →
      field_set st f v = .error .readOnlyError ∧
      ∀ st', field_set st f v ≠ .ok st') := by
  constructor
  · intro hp
    unfold field_set
    rw [hty, hp]
    simp
  · intro hp
    have he : field_set st f v = .error .readOnlyError := by
      unfold field_set
      rw [hty, hp, hro]
      simp
    refine ⟨he, fun st' h => ?_⟩
    rw [he] at h
    exact absurd h (by simp)

/-- Witness for C6 at a concrete read-only string field. -/
theorem read_only_enforced_after_provision_witness :
    field_set ⟨[], [], false⟩ c6_field (.vstr "y") =
      .ok ⟨[("locked", .vstr "y")], [("locked", .vstr "y")], false⟩ ∧
    field_set c6_st c6_field (.vstr "y") = .error .readOnlyError := by
  constructor
  · exact (read_only_enforced_after_provision c6_field ⟨[], [], false⟩ (.vstr "y")
      rfl rfl).1 rfl
  · exact ((read_only_enforced_after_provision c6_field c6_st (.vstr "y")
      rfl rfl).2 rfl).1

/-- C7: refuted on the code because `validate` reads the wrong key: a
record over a schema whose field has accessor name `foo` but persisted
key `bar` is constructed with the required value present — `_data` holds
it under `bar` — yet `validate` raises `DataProcessingError` naming
`foo`, because it checks `self._data.get(field.name)` although `_data` is
keyed by `field.key`.  The claimed "raises iff some required current
value is absent" therefore fails. -/
theorem validate_checks_name_not_key :
    model_init c7_schema [("foo", .vstr "x")] = .ok c7_st ∧
    alistGet c7_st.data "bar" = some (.vstr "x") ∧
    validate c7_st c7_schema = .error (.validationError "foo") :=
  ⟨rfl, rfl, rfl⟩

/-- C8 counterexample: constructing from the scenario schema with the
empty map does not succeed — `_set_fields` assigns `None` to the
required, defaultless field `name` and the typed setter raises
`TypeError`, so `validate()` is never reached. -/
theorem construct_empty_raises_counterexample :
    model_init c8_schema [] = .error .typeError := rfl

/-- C8 (amended): with schema `{name: str, required}, {count: int,
default=0}`, construction with `{name: "x"}` succeeds and `dump()` equals
`{"name": "x", "count": 0}`; construction with `{}` raises `TypeError`
during construction instead of succeeding, so no `validate()` call on
such a record is possible. -/
theorem construct_and_dump_scenario :
    model_init c8_schema [("name", .vstr "x")] = .ok c8_st ∧
    model_dump c8_st true c8_schema = [("name", .vstr "x"), ("count", .vint 0)] ∧
    model_init c8_schema [] = .error .typeError :=
  ⟨rfl, rfl, rfl⟩

/-- C9: `refresh` attempts `is_alive() or _connect()` at most
`retry_count` times: it returns `True` exactly when some attempt within
the budget succeeds (breaking at the first success), and raises the
connectivity error exactly when every attempt in the budget fails. -/
theorem refresh_bounded_retry (retry_count : Nat) (is_alive conn : Nat → Bool) :
    (connector_refresh retry_count is_alive conn = .ok true ↔
      ∃ i, i < retry_count ∧ (is_alive i || conn i) = true) ∧
    (connector_refresh retry_count is_alive conn = .error .connectivityError ↔
      ∀ i, i < retry_count → (is_alive i || conn i) = false) := by
  have hok : connector_refresh retry_count is_alive conn = .ok true ↔
      ∃ i, i < retry_count ∧ (is_alive i || conn i) = true := by
    have h := refresh_loop_ok_iff is_alive conn retry_count 0
    simpa using h
  have hcases : connector_refresh retry_count is_alive conn = .ok true ∨
      connector_refresh retry_count is_alive conn = .error .connectivityError :=
    refresh_loop_cases is_alive conn retry_count 0
  refine ⟨hok, ?_, ?_⟩
  · intro herr i hi
    cases hatt : (is_alive i || conn i) with
    | false => rfl
    | true =>
      have hoktrue : connector_refresh retry_count is_alive conn = .ok true :=
        hok.mpr ⟨i, hi, hatt⟩
      rw [hoktrue] at herr
      exact absurd herr (by simp)
  · intro hall
    rcases hcases with hc | hc
    · obtain ⟨i, hi, hatt⟩ := hok.mp hc
      rw [hall i hi] at hatt
      exact absurd hatt (by simp)
    · exact hc

/-- C10: the pending-changes map is always a sub-map of the current data
map — established by construction (together with key-uniqueness of the
pending map), preserved by the descriptor write, by `update` and by
`commit`; and a freshly constructed record already carries each truthy
initially-assigned field in its pending map. -/
theorem pending_submap_invariant :
    (∀ (schema : List Field) (fields : List (String × PyVal)) (st : ModelState),
      model_init schema fields = .ok st →
      sub_map st.changes st.data ∧ (st.changes.map Prod.fst).Nodup) ∧
    (∀ (st : ModelState) (f : Field) (v : PyVal) (st' : ModelState),
      sub_map st.changes st.data → (st.changes.map Prod.fst).Nodup →
      field_set st f v = .ok st' →
      sub_map st'.changes st'.data ∧ (st'.changes.map Prod.fst).Nodup) ∧
    (∀ (st : ModelState) (schema : List Field) (fields : List (String × PyVal)),
      sub_map st.changes st.data → (st.changes.map Prod.fst).Nodup →
      sub_map (model_update st schema fields).changes
        (model_update st schema fields).data ∧
      ((model_update st schema fields).changes.map Prod.fst).Nodup) ∧
    (∀ st : ModelState, sub_map (base_commit st).changes (base_commit st).data) ∧
    (∀ (schema : List Field) (fields : List (String × PyVal)) (st : ModelState)
      (f : Field) (v : PyVal),
      (schema.map Field.key).Nodup → f ∈ schema →
      alistGet fields f.name = some v → truthy v = true →
      model_init schema fields = .ok st →
      alistGet st.changes f.key = some v) := by
  refine ⟨?_, ?_, ?_, ?_, ?_⟩
  · intro schema fields st h
    exact model_init_inv h
  · intro st f v st' hs hn h
    have h1 := field_set_ok h
    subst h1
    exact ⟨sub_map_alistSet _ _ hs, alistSet_keys_nodup _ _ _ hn⟩
  · intro st schema fields hs hn
    unfold model_update
    by_cases he : fields.isEmpty = true
    · rw [if_pos he]
      exact ⟨hs, hn⟩
    · rw [if_neg he]
      constructor
      · intro k v hk
        exact alistGet_dictUpdate_of_some _ _ _ _
          (stage_changes_nodup schema st.changes hn) hk
      · exact stage_changes_nodup schema st.changes hn
  · intro st k v hk
    simp [base_commit, alistGet] at hk
  · intro schema fields st f v hnd hf hv htr h
    exact model_init_hit hnd hf hv htr h

/-- Witness for C10: the invariant and the initially-assigned clause on the
freshly constructed C8 scenario record. -/
theorem pending_submap_invariant_witness :
    sub_map c8_st.changes c8_st.data ∧
    alistGet c8_st.changes "name" = some (.vstr "x") := by
  refine ⟨(pending_submap_invariant.1 c8_schema [("name", .vstr "x")] c8_st rfl).1, ?_⟩
  exact pending_submap_invariant.2.2.2.2 c8_schema [("name", .vstr "x")] c8_st
    c8_name_field (.vstr "x") (by decide) (List.mem_cons_self _ _) rfl rfl rfl

end Arestor
